import Mathlib

/-!
Shallow embedding of the `agent-ready-layer` repository (HTML → action-contract
generator, network-call normalizer, browser session) and proofs about it.

Sources embedded:
* `src/domParser.js` — form/button/link extraction helpers (method
  normalization, field-type inference);
* `src/contractGenerator.js` — `generateContract` and its naming algorithm;
* `src/apiDiscovery.js` — `inferSchemaFromBody` and the request-capture
  dedup logic of `fetchWithApiDiscovery`;
* `src/browserSession.js` — session singleton (`launch`, `click`, `fill`,
  `getSnapshot`).

Conventions of the embedding: JS strings are `String` (a packed `List Char`);
missing attributes are `Option String` with JS truthiness (`none` and `""`
falsy); element sets selected by cheerio queries are taken as lists of
attribute records; one JS statement maps to one Lean expression.  JS
`toLowerCase`/`toUpperCase` are modelled on the ASCII letters, which covers
every string the generator manipulates.
-/

/-- JS truthiness of an optional string attribute: `undefined`/`null` and `""` are falsy. -/
def attrTruthy : Option String → Bool
  | none => false
  | some s => s ≠ ""

/-- JS `a || b` for strings: returns `a` unless `a` is the falsy `""`. -/
def jsOr (a b : String) : String := if a = "" then b else a

/-- JS coercion of a possibly-missing attribute with `|| ''`. -/
def attrStr : Option String → String
  | none => ""
  | some s => s

/-- ASCII model of JS `String.prototype.toLowerCase` on one character. -/
def lowerChar (c : Char) : Char :=
  match c with
  | 'A' => 'a' | 'B' => 'b' | 'C' => 'c' | 'D' => 'd' | 'E' => 'e' | 'F' => 'f'
  | 'G' => 'g' | 'H' => 'h' | 'I' => 'i' | 'J' => 'j' | 'K' => 'k' | 'L' => 'l'
  | 'M' => 'm' | 'N' => 'n' | 'O' => 'o' | 'P' => 'p' | 'Q' => 'q' | 'R' => 'r'
  | 'S' => 's' | 'T' => 't' | 'U' => 'u' | 'V' => 'v' | 'W' => 'w' | 'X' => 'x'
  | 'Y' => 'y' | 'Z' => 'z'
  | c => c

/-- ASCII model of JS `String.prototype.toUpperCase` on one character. -/
def upperChar (c : Char) : Char :=
  match c with
  | 'a' => 'A' | 'b' => 'B' | 'c' => 'C' | 'd' => 'D' | 'e' => 'E' | 'f' => 'F'
  | 'g' => 'G' | 'h' => 'H' | 'i' => 'I' | 'j' => 'J' | 'k' => 'K' | 'l' => 'L'
  | 'm' => 'M' | 'n' => 'N' | 'o' => 'O' | 'p' => 'P' | 'q' => 'Q' | 'r' => 'R'
  | 's' => 'S' | 't' => 'T' | 'u' => 'U' | 'v' => 'V' | 'w' => 'W' | 'x' => 'X'
  | 'y' => 'Y' | 'z' => 'Z'
  | c => c

/-- JS `s.toLowerCase()` (ASCII model). -/
def jsLower (s : String) : String := ⟨s.data.map lowerChar⟩

/-- JS `s.toUpperCase()` (ASCII model). -/
def jsUpper (s : String) : String := ⟨s.data.map upperChar⟩

/-- Worker for `collapseWs`; the flag records whether the previous character
was part of a whitespace run (whose `'_'` has already been emitted). -/
def collapseWsAux : Bool → List Char → List Char
  | _, [] => []
  | prevWs, c :: cs =>
    if c.isWhitespace then
      if prevWs then collapseWsAux true cs
      else '_' :: collapseWsAux true cs
    else c :: collapseWsAux false cs

/-- Core of JS `s.replace(/\s+/g, '_')`: every maximal whitespace run becomes one `'_'`. -/
def collapseWs (cs : List Char) : List Char := collapseWsAux false cs

/-- The character class `[a-zA-Z0-9_]` used by the generator's regexes. -/
def isWordChar (c : Char) : Bool := c.isAlpha || c.isDigit || c = '_'

/-- `slug` from `src/contractGenerator.js`:
`name.replace(/\s+/g, '_').replace(/[^a-zA-Z0-9_]/g, '').toLowerCase()`. -/
def slug (name : String) : String :=
  ⟨((collapseWs name.data).filter isWordChar).map lowerChar⟩

/-- Decimal digit character (for rendering JS numbers). -/
def decDigit (d : Nat) : Char :=
  if d = 0 then '0' else if d = 1 then '1' else if d = 2 then '2'
  else if d = 3 then '3' else if d = 4 then '4' else if d = 5 then '5'
  else if d = 6 then '6' else if d = 7 then '7' else if d = 8 then '8' else '9'

/-- Decimal digit characters of a natural number, most significant first;
`fuel` is an upper bound on the recursion depth (any `fuel > n` is enough,
because `n / 10 < n` strictly decreases). -/
def decDigitsAux : Nat → Nat → List Char
  | 0, _ => []
  | fuel + 1, n =>
    if n < 10 then [decDigit n]
    else decDigitsAux fuel (n / 10) ++ [decDigit (n % 10)]

/-- Model of JS number-to-string conversion (template literals, `+` coercion). -/
def decStr (n : Nat) : String := ⟨decDigitsAux (n + 1) n⟩

/-- JS `s.trim()` on a character list. -/
def trimChars (cs : List Char) : List Char :=
  ((cs.dropWhile Char.isWhitespace).reverse.dropWhile Char.isWhitespace).reverse

/-- JS `s.trim()`. -/
def jsTrim (s : String) : String := ⟨trimChars s.data⟩

/-- JS `s.slice(0, n)`. -/
def jsTake (s : String) (n : Nat) : String := ⟨s.data.take n⟩

/-! ## Structural Extractor (`src/domParser.js`)

`extractInteractiveGroups` walks cheerio query results.  The embedding takes
the raw attribute records of the selected elements and reproduces the
per-element computations of the source. -/

/-- `inputTypeToSchema` from `src/domParser.js`. -/
def inputTypeToSchema (t : String) : String :=
  if t = "text" then "string"
  else if t = "email" then "string"
  else if t = "password" then "string"
  else if t = "number" then "number"
  else if t = "tel" then "string"
  else if t = "url" then "string"
  else if t = "hidden" then "string"
  else if t = "checkbox" then "boolean"
  else if t = "radio" then "string"
  else if t = "date" then "string"
  else if t = "datetime" then "string"
  else if t = "search" then "string"
  else "string"

/-- Raw attributes of one `input`/`select`/`textarea` descendant of a form. -/
structure RawInput where
  nameAttr : Option String
  typeAttr : Option String
  tagName : String
  requiredAttr : Option String
deriving Repr, DecidableEq

/-- The field-type computation of `extractInteractiveGroups`, exactly as the
source parses (JS `?:` binds looser than `||`, so the whole expression
`$inp.attr('type') || $inp.prop('tagName').toLowerCase() === 'select'`
is the condition):
`const type = ($inp.attr('type') || $inp.prop('tagName').toLowerCase() === 'select' ? 'select' : 'text').toLowerCase();`
followed by `type === 'select' ? 'string' : inputTypeToSchema(type)`. -/
def extractedFieldType (typeAttr : Option String) (tagName : String) : String :=
  let t := jsLower (if attrTruthy typeAttr || jsLower tagName = "select" then "select" else "text")
  if t = "select" then "string" else inputTypeToSchema t

/-- A retained form field (`{ name, type, required }` pushed onto `inputs`). -/
structure InputRec where
  name : String
  type : String
  required : Bool
deriving Repr, DecidableEq

/-- The method normalization of `extractInteractiveGroups`:
`const method = (($form.attr('method') || 'get').toUpperCase());` and then
`method === 'GET' ? 'GET' : 'POST'` on the pushed record. -/
def extractedFormMethod (methodAttr : Option String) : String :=
  let m := jsUpper (jsOr (attrStr methodAttr) "get")
  if m = "GET" then "GET" else "POST"

/-- Raw attributes of one `<form>` element and its input descendants. -/
structure RawForm where
  actionAttr : Option String
  methodAttr : Option String
  rawInputs : List RawInput
  /-- Text of `$form.find('button[type="submit"], input[type="submit"]').first()`
  (empty when no submit control exists). -/
  submitText : String
  idAttr : Option String
  classAttr : Option String
deriving Repr, DecidableEq

/-- A `FormRecord` as pushed onto `forms` by `extractInteractiveGroups`. -/
structure FormRec where
  action : String
  method : String
  inputs : List InputRec
  submitLabel : String
  id : Option String
  className : Option String
deriving Repr, DecidableEq

/-- The per-form body of `extractInteractiveGroups`: named descendants become
fields (`if (!name) return;`), and the submit label defaults to `"submit"`. -/
def extractForm (rf : RawForm) : FormRec :=
  { action := attrStr rf.actionAttr
    method := extractedFormMethod rf.methodAttr
    inputs := rf.rawInputs.filterMap (fun inp =>
      match inp.nameAttr with
      | none => none
      | some n =>
        if n = "" then none
        else some { name := n
                    type := extractedFieldType inp.typeAttr inp.tagName
                    required := attrTruthy inp.requiredAttr })
    submitLabel := jsOr (jsTrim rf.submitText) "submit"
    id := rf.idAttr
    className := rf.classAttr }

/-- `attr(x) || null`: an empty attribute value collapses to `null`. -/
def jsNullable (a : Option String) : Option String :=
  if attrTruthy a then a else none

/-- Raw attributes of one element matched by the button-like selector union. -/
structure RawButton where
  textContent : String
  valueAttr : Option String
  ariaLabel : Option String
  titleAttr : Option String
  dataLabel : Option String
  dataAction : Option String
  altAttr : Option String
  idAttr : Option String
  classAttr : Option String
  tagName : String
  typeAttr : Option String
  /-- `$el.closest('form').length > 0`. -/
  inForm : Bool
deriving Repr, DecidableEq

/-- A button record as pushed by `extractInteractiveGroups`. -/
structure ButtonRec where
  text : String
  id : Option String
  className : Option String
  tag : String
  type : String
  inForm : Bool
deriving Repr, DecidableEq

/-- The per-button body of `extractInteractiveGroups` (label resolution chain
`text → value → aria-label → title → data-label → data-action → alt → ''`). -/
def extractButton (rb : RawButton) : ButtonRec :=
  { text := jsTrim (jsOr (jsTrim rb.textContent)
      (jsOr (attrStr rb.valueAttr) (jsOr (attrStr rb.ariaLabel)
        (jsOr (attrStr rb.titleAttr) (jsOr (attrStr rb.dataLabel)
          (jsOr (attrStr rb.dataAction) (attrStr rb.altAttr)))))))
    id := jsNullable rb.idAttr
    className := jsNullable rb.classAttr
    tag := if rb.tagName = "" then "" else jsLower rb.tagName
    type := jsLower (attrStr rb.typeAttr)
    inForm := rb.inForm }

/-- Raw attributes of one `a[href]` element. -/
structure RawLink where
  hrefAttr : Option String
  textContent : String
  classAttr : Option String
  idAttr : Option String
deriving Repr, DecidableEq

/-- A link record as pushed by `extractInteractiveGroups`. -/
structure LinkRec where
  href : String
  text : String
  className : Option String
  id : Option String
deriving Repr, DecidableEq

/-- The script-pseudo href test `/^\s*javascript\s*:/i`. -/
def jsPseudoHref (s : String) : Bool :=
  let rest := s.data.dropWhile Char.isWhitespace
  (rest.take 10).map lowerChar = "javascript".data
    && ((rest.drop 10).dropWhile Char.isWhitespace).head? = some ':'

/-- The per-link body of `extractInteractiveGroups`: empty, fragment-only and
script-pseudo hrefs are skipped. -/
def extractLink (rl : RawLink) : Option LinkRec :=
  let href := jsTrim (attrStr rl.hrefAttr)
  if href = "" ∨ href = "#" ∨ href.data.head? = some '#' ∨ jsPseudoHref href then none
  else some { href := href
              text := jsTrim rl.textContent
              className := jsNullable rl.classAttr
              id := jsNullable rl.idAttr }

/-- Output of `extractInteractiveGroups`. -/
structure Groups where
  forms : List FormRec
  buttons : List ButtonRec
  links : List LinkRec
deriving Repr, DecidableEq

/-- Raw element material of one page, as cheerio's selectors deliver it. -/
structure RawPage where
  rawForms : List RawForm
  rawButtons : List RawButton
  rawLinks : List RawLink
deriving Repr, DecidableEq

/-- `extractInteractiveGroups` over the selected element records. -/
def extractInteractiveGroups (p : RawPage) : Groups :=
  { forms := p.rawForms.map extractForm
    buttons := p.rawButtons.map extractButton
    links := p.rawLinks.filterMap extractLink }

/-! ## Contract Synthesizer (`src/contractGenerator.js`) -/

/-- `AGENT_PREFIX` from `src/contractGenerator.js` (the constant `'/agent'`). -/
def agentBasePath : String := "/agent"

/-- One synthesized action (`{ action, method, endpoint, schema, description }`). -/
structure ActionRec where
  action : String
  method : String
  endpoint : String
  schema : List (String × String)
  description : String
deriving Repr, DecidableEq

/-- JS object assignment `o[k] = v` on an insertion-ordered field list. -/
def objSet {α : Type} (kvs : List (String × α)) (k : String) (v : α) : List (String × α) :=
  if kvs.any (fun p => p.1 = k) then
    kvs.map (fun p => if p.1 = k then (k, v) else p)
  else kvs ++ [(k, v)]

/-- `buildSchemaFromInputs` from `src/contractGenerator.js`:
`schema[name] = { type, required }` over the form's inputs. -/
def buildSchemaFromInputs (inputs : List InputRec) : List (String × (String × Bool)) :=
  inputs.foldl (fun schema i => objSet schema i.name (i.type, i.required)) []

/-- The form branch of `generateContract` (index `idx` is 0-based as in `forEach`). -/
def formAction (idx : Nat) (form : FormRec) : ActionRec :=
  let actionName :=
    if form.submitLabel = "" then "submitForm_" ++ decStr (idx + 1)
    else slug form.submitLabel
  { action := actionName
    method := form.method
    endpoint := agentBasePath ++ "/" ++ actionName
    schema := (buildSchemaFromInputs form.inputs).map (fun kv => (kv.1, kv.2.1))
    description := if form.submitLabel = "" then "Form " ++ decStr (idx + 1)
                   else "Submit: " ++ form.submitLabel }

/-- The `forms.forEach((form, idx) => …)` loop of `generateContract`. -/
def formActionsFrom : Nat → List FormRec → List ActionRec
  | _, [] => []
  | idx, f :: rest => formAction idx f :: formActionsFrom (idx + 1) rest

/-- The candidate sequence tried by `ensureUnique`: `base`, `base_2`, `base_3`, …. -/
def nameCandidate (base : String) : Nat → String
  | 0 => base
  | k + 1 => base ++ "_" ++ decStr (k + 2)

/-- The `while (used.has(name))` loop of `ensureUnique`, with explicit fuel
(`k` counts the candidates already rejected). -/
def ensureUniqueFrom (base : String) (used : List String) : Nat → Nat → String
  | 0, k => nameCandidate base k
  | fuel + 1, k =>
    if nameCandidate base k ∈ used then ensureUniqueFrom base used fuel (k + 1)
    else nameCandidate base k

/-- `ensureUnique` from `src/contractGenerator.js`; `used.length + 1` fuel
always suffices because the candidates are pairwise distinct. -/
def ensureUnique (base : String) (used : List String) : String :=
  ensureUniqueFrom base used (used.length + 1) 0

/-- `(btn.text && slug(btn.text)) || (btn.id && slug(btn.id)) || ''`. -/
def buttonBase (btn : ButtonRec) : String :=
  jsOr (if btn.text = "" then "" else slug btn.text)
    (match btn.id with
     | none => ""
     | some s => if s = "" then "" else slug s)

/-- `new Set(forms.map((f) => (f.submitLabel ? slug(f.submitLabel) : '')).filter(Boolean))`. -/
def formActionNames (forms : List FormRec) : List String :=
  (forms.map (fun f => if f.submitLabel = "" then "" else slug f.submitLabel)).filter
    (fun n => n ≠ "")

/-- The button loop of `generateContract`, threading the `usedActions` set. -/
def buttonActions (forms : List FormRec) :
    List ButtonRec → Nat → List String → List ActionRec × List String
  | [], _, used => ([], used)
  | btn :: rest, idx, used =>
    let base := buttonBase btn
    if btn.inForm ∧ base ≠ "" ∧ base ∈ formActionNames forms then
      buttonActions forms rest (idx + 1) used
    else
      let actionName := ensureUnique (jsOr base ("button_" ++ decStr (idx + 1))) used
      let act : ActionRec :=
        { action := actionName
          method := "POST"
          endpoint := agentBasePath ++ "/" ++ actionName
          schema := []
          description := jsOr btn.text (jsOr (attrStr btn.id) ("Button " ++ decStr (idx + 1))) }
      let rec2 := buttonActions forms rest (idx + 1) (actionName :: used)
      (act :: rec2.1, rec2.2)

/-- `link.href.replace(/^https?:\/\/[^/]+/, '')`: strip scheme and host when
the href is absolute (the host part must be non-empty). -/
def stripHost (href : String) : String :=
  let cs := href.data
  let after : Option (List Char) :=
    if cs.take 7 = "http://".data then some (cs.drop 7)
    else if cs.take 8 = "https://".data then some (cs.drop 8)
    else none
  match after with
  | some rest =>
    if rest ≠ [] ∧ rest.head? ≠ some '/' then ⟨rest.dropWhile (fun c => c ≠ '/')⟩
    else href
  | none => href

/-- `slug(link.href.replace(...).replace(/\//g, '_').slice(0, 30)) || 'link'`. -/
def linkPathSlug (href : String) : String :=
  jsOr (slug ⟨((stripHost href).data.map (fun c => if c = '/' then '_' else c)).take 30⟩)
    "link"

/-- `(link.text && slug(link.text)) || (link.id && slug(link.id)) || pathSlug`. -/
def linkBase (link : LinkRec) : String :=
  jsOr (if link.text = "" then "" else slug link.text)
    (jsOr (match link.id with
           | none => ""
           | some s => if s = "" then "" else slug s)
      (linkPathSlug link.href))

/-- The link loop of `generateContract`, threading the `usedActions` set. -/
def linkActions : List LinkRec → List String → List ActionRec × List String
  | [], used => ([], used)
  | link :: rest, used =>
    let actionName := ensureUnique (linkBase link) used
    let act : ActionRec :=
      { action := actionName
        method := "GET"
        endpoint := agentBasePath ++ "/" ++ actionName
        schema := []
        description := jsOr link.text link.href }
    let rec2 := linkActions rest (actionName :: used)
    (act :: rec2.1, rec2.2)

/-- `/^[a-zA-Z0-9_]+$/.test(s)`. -/
def isWordToken (s : String) : Bool :=
  s.data ≠ [] && s.data.all isWordChar

/-- `s.replace(/\s/g, '_')`: each single whitespace character becomes `'_'`. -/
def replaceEachWs (s : String) : String :=
  ⟨s.data.map (fun c => if c.isWhitespace then '_' else c)⟩

/-- `inferContractName` from `src/contractGenerator.js`; `titleText` is the
raw `$('title').text()` of the page. -/
def inferContractName (titleText : String) (contextHint : Option String) : String :=
  let fromTitle :=
    let title := jsTrim titleText
    if title = "" then "pageActions"
    else jsOr ⟨((collapseWs title.data).filter isWordChar).take 40⟩ "pageActions"
  match contextHint with
  | none => fromTitle
  | some hint =>
    if hint ≠ "" ∧ isWordToken (replaceEachWs hint) then replaceEachWs hint
    else fromTitle

/-- The synthesized `{ contractName, actions }` document. -/
structure Contract where
  contractName : String
  actions : List ActionRec
deriving Repr, DecidableEq

/-- `generateContract` from `src/contractGenerator.js`, starting from the
extracted groups (`parseDOM`/`extractInteractiveGroups` output) and the page
title text.  Forms are pushed first, then buttons, then links; `usedActions`
is seeded with the form action names only. -/
def generateContract (gs : Groups) (titleText : String) (contextHint : Option String) :
    Contract :=
  let formActs := formActionsFrom 0 gs.forms
  let used0 := formActs.map (fun a => a.action)
  let btns := buttonActions gs.forms gs.buttons 0 used0
  let lnks := linkActions gs.links btns.2
  { contractName := inferContractName titleText contextHint
    actions := formActs ++ btns.1 ++ lnks.1 }

/-! ## Network Observation Normalizer (`src/apiDiscovery.js`) -/

/-- A parsed JSON value (result of Playwright's `request.postDataJSON()`). -/
inductive JVal where
  | null
  | bool (b : Bool)
  | num (n : Int)
  | str (s : String)
  | arr (elems : List JVal)
  | obj (fields : List (String × JVal))

/-- JS `typeof` on a JSON value (`typeof null === 'object'`). -/
def jsTypeof : JVal → String
  | .null => "object"
  | .bool _ => "boolean"
  | .num _ => "number"
  | .str _ => "string"
  | .arr _ => "object"
  | .obj _ => "object"

/-- JS truthiness of a JSON value. -/
def jvalTruthy : JVal → Bool
  | .null => false
  | .bool b => b
  | .num n => n ≠ 0
  | .str s => s ≠ ""
  | .arr _ => true
  | .obj _ => true

/-- The per-entry branch of `inferSchemaFromBody`:
`null → 'string'`, arrays → `'array'`, other objects → `'object'`, else `typeof v`. -/
def topValType : JVal → String
  | .null => "string"
  | .arr _ => "array"
  | .obj _ => "object"
  | v => jsTypeof v

/-- `inferSchemaFromBody` from `src/apiDiscovery.js`.  Non-objects (guarded by
`obj === null || typeof obj !== 'object'`) yield the synthetic `_body` field;
otherwise `Object.entries` is walked (arrays enumerate their indices). -/
def inferSchemaFromBody : JVal → List (String × String)
  | .obj kvs => kvs.map (fun kv => (kv.1, topValType kv.2))
  | .arr xs => xs.enum.map (fun p => (decStr p.1, topValType p.2))
  | v => [("_body", jsTypeof v)]

/-- One intercepted request, as seen by the `requestfinished` handler:
`postData` is `request.postData()` (absent body → `none`), `postDataJSON` is
`request.postDataJSON()` (`none` when the body is missing or not decodable —
the source wraps both calls in `try { … } catch (_) {}`). -/
structure ReqDescr where
  resourceType : String
  url : String
  method : String
  postData : Option String
  postDataJSON : Option JVal
  contentTypeHeader : Option String

/-- One discovered-API record pushed by the handler. -/
structure DiscoveredApi where
  method : String
  url : String
  postDataSample : Option String
  bodySchema : Option (List (String × String))
  contentType : Option String
deriving Repr, DecidableEq

/-- `API_RESOURCE_TYPES.has(request.resourceType())`. -/
def isApiResource (r : ReqDescr) : Bool :=
  r.resourceType = "xhr" || r.resourceType = "fetch"

/-- The dedup key `` `${method} ${u}` ``. -/
def reqKey (method url : String) : String := method ++ " " ++ url

/-- The record built for a first-seen request (`postData || undefined`,
`bodySchema` only when the decoded body is a truthy `object`,
`contentType.slice(0, 80) || undefined`). -/
def recordOf (r : ReqDescr) : DiscoveredApi :=
  { method := r.method
    url := r.url
    postDataSample := match r.postData with
      | none => none
      | some s => if s = "" then none else some s
    bodySchema := match r.postDataJSON with
      | none => none
      | some v =>
        if jvalTruthy v && jsTypeof v = "object" then some (inferSchemaFromBody v)
        else none
    contentType :=
      let ct := jsTake (attrStr r.contentTypeHeader) 80
      if ct = "" then none else some ct }

/-- One `requestfinished` event over the handler state
(`seen` set of keys, accumulated `discoveredApis`). -/
def discoverStep (st : List String × List DiscoveredApi) (r : ReqDescr) :
    List String × List DiscoveredApi :=
  if isApiResource r then
    let key := reqKey r.method r.url
    if key ∈ st.1 then st
    else (key :: st.1, st.2 ++ [recordOf r])
  else st

/-- The `discoveredApis` list returned by `fetchWithApiDiscovery` after the
capture window saw the request sequence `reqs` (in arrival order). -/
def discoveredApis (reqs : List ReqDescr) : List DiscoveredApi :=
  (reqs.foldl discoverStep ([], [])).2

/-! ## Action Resolver and Live State Snapshotter (`src/browserSession.js`) -/

/-- Raw material of one button-like element on the live page. -/
structure LiveButton where
  textContent : String
  valueAttr : Option String
  ariaLabel : Option String
  tagName : String
deriving Repr, DecidableEq

/-- Raw material of one `a[href]` element on the live page. -/
structure LiveLink where
  hrefAttr : Option String
  textContent : String
deriving Repr, DecidableEq

/-- Raw material of one form input on the live page. -/
structure LiveInput where
  nameAttr : Option String
  typeAttr : Option String
  ariaLabel : Option String
  placeholder : Option String
deriving Repr, DecidableEq

/-- Raw material of one `<form>` on the live page. -/
structure LiveForm where
  inputs : List LiveInput
  submitText : String
deriving Repr, DecidableEq

/-- The live page handle behind `page`.  The element records model cheerio
queries over `page.content()`; `clickTarget`/`fillTarget` abstract the
external Playwright locator engine (`locator.click`/`locator.fill`
succeeding within their timeout for a given resolved identifier). -/
structure LivePage where
  buttons : List LiveButton
  links : List LiveLink
  forms : List LiveForm
  titleText : String
  url : String
  clickTarget : String → Bool
  fillTarget : String → Bool

/-- The module-level mutable state of `src/browserSession.js`
(`let browser = null; let page = null;`); the browser slot records the
headless flag of the launched instance. -/
structure SessionState where
  browser : Option Bool
  page : Option LivePage

/-- Result object of a session operation (`{ ok, message }`). -/
structure OpResult where
  ok : Bool
  message : String
deriving Repr, DecidableEq

/-- The blank page produced by `context.newPage()`. -/
def blankPage : LivePage :=
  { buttons := [], links := [], forms := [], titleText := "", url := "about:blank"
    clickTarget := fun _ => false, fillTarget := fun _ => false }

/-- `launch` from `src/browserSession.js`: early-returns when a browser is
already open, otherwise opens one browser/context/page pair. -/
def launch (st : SessionState) (headed : Bool) : SessionState × OpResult :=
  if st.browser.isSome then
    (st, { ok := true, message := "Browser already open" })
  else
    ({ browser := some (!headed), page := some blankPage },
     { ok := true
       message := if headed then "Browser opened (visible)" else "Browser opened (headless)" })

/-- Outcome of an interaction operation: the thrown error classes of the
source are separated by cause (`'Browser not launched…'` precondition throw,
the required-argument throw, a Playwright locator failure naming the target,
or success). -/
inductive OpOutcome where
  | preconditionError (message : String)
  | invalidInput (message : String)
  | resolutionError (target : String)
  | ok (message : String)
deriving Repr, DecidableEq

/-- The precondition message thrown by `click`, `fill`, `fillForm`,
`navigate` and `getSnapshot`. -/
def launchErrMsg : String := "Browser not launched. Call browser_launch first."

/-- `click` from `src/browserSession.js`: precondition check, argument check,
then locator resolution (selector-vs-label classification and the role/text
fallback chain live inside the external locator engine, abstracted by
`clickTarget`). -/
def click (st : SessionState) (descriptionOrSelector : String) : OpOutcome :=
  match st.page with
  | none => .preconditionError launchErrMsg
  | some p =>
    let s := jsTrim descriptionOrSelector
    if s = "" then .invalidInput "click: description or selector is required"
    else if p.clickTarget s then .ok s
    else .resolutionError s

/-- `fill` from `src/browserSession.js`: precondition check, then the
name/label/placeholder locator chain (abstracted by `fillTarget`). -/
def fill (st : SessionState) (fieldIdentifier value : String) : OpOutcome :=
  match st.page with
  | none => .preconditionError launchErrMsg
  | some p =>
    let i := jsTrim fieldIdentifier
    if p.fillTarget i then .ok i
    else .resolutionError i

/-- A snapshot button entry (`{ type: 'button', text, tag }`). -/
structure SnapButton where
  type : String
  text : String
  tag : String
deriving Repr, DecidableEq

/-- A snapshot link entry (`{ type: 'link', text, href }`). -/
structure SnapLink where
  type : String
  text : String
  href : String
deriving Repr, DecidableEq

/-- A snapshot form-input entry (`{ name, label, type }`). -/
structure SnapInput where
  name : String
  label : String
  type : String
deriving Repr, DecidableEq

/-- A snapshot form entry (`{ type: 'form', submitLabel, inputs }`). -/
structure SnapForm where
  type : String
  submitLabel : String
  inputs : List SnapInput
deriving Repr, DecidableEq

/-- The document returned by `getSnapshot`. -/
structure SnapshotDoc where
  url : String
  title : String
  buttons : List SnapButton
  links : List SnapLink
  forms : List SnapForm
deriving Repr, DecidableEq

/-- The body of `getSnapshot` on the current rendered page: re-extracts
buttons, links and forms and truncates with `buttons.slice(0, 50)` and
`links.slice(0, 80)`. -/
def getSnapshotOfPage (p : LivePage) : SnapshotDoc :=
  let buttons := p.buttons.filterMap (fun b =>
    let text := jsTake (jsTrim (jsOr b.textContent
      (jsOr (attrStr b.valueAttr) (attrStr b.ariaLabel)))) 80
    if text = "" then none
    else some { type := "button", text := text
                tag := if b.tagName = "" then "" else jsLower b.tagName })
  let links := p.links.filterMap (fun l =>
    let href := attrStr l.hrefAttr
    if href = "" ∨ href = "#" ∨ ("javascript:".data.isPrefixOf href.data) then none
    else
      let text := jsTake (jsTrim l.textContent) 80
      if text = "" then none
      else some { type := "link", text := text, href := jsTake href 200 })
  let forms := p.forms.map (fun f =>
    let inputs := f.inputs.filterMap (fun inp =>
      match inp.nameAttr with
      | none => none
      | some n =>
        if n = "" ∨ jsLower (attrStr inp.typeAttr) = "hidden" then none
        else some { name := n
                    label := jsOr (attrStr inp.ariaLabel) (jsOr (attrStr inp.placeholder) n)
                    type := jsLower (jsOr (attrStr inp.typeAttr) "text") })
    { type := "form", submitLabel := jsOr (jsTrim f.submitText) "Submit", inputs := inputs })
  { url := p.url
    title := jsTrim p.titleText
    buttons := buttons.take 50
    links := links.take 80
    forms := forms }

/-- `getSnapshot` from `src/browserSession.js`, including its precondition
throw. -/
def getSnapshot (st : SessionState) : Except String SnapshotDoc :=
  match st.page with
  | none => .error launchErrMsg
  | some p => .ok (getSnapshotOfPage p)

/-! ## Auxiliary definitions used by the statements and proofs -/

/-- The 26 ASCII capitals (the domain on which `lowerChar` acts). -/
def isUpperAscii (c : Char) : Bool :=
  c = 'A' || c = 'B' || c = 'C' || c = 'D' || c = 'E' || c = 'F' || c = 'G' ||
  c = 'H' || c = 'I' || c = 'J' || c = 'K' || c = 'L' || c = 'M' || c = 'N' ||
  c = 'O' || c = 'P' || c = 'Q' || c = 'R' || c = 'S' || c = 'T' || c = 'U' ||
  c = 'V' || c = 'W' || c = 'X' || c = 'Y' || c = 'Z'

/-- A string that lowercasing leaves unchanged (used to read exact name
uniqueness as case-insensitive uniqueness). -/
def lowerFixed (s : String) : Prop := jsLower s = s

/-- A string containing no space (true of every HTTP method token); under it
the dedup key `` `${method} ${url}` `` identifies the `(method, url)` pair. -/
abbrev spaceFree (s : String) : Prop := ' ' ∉ s.data

/-- The first captured XHR/fetch request with the given method and url. -/
def firstApiReq (m u : String) (reqs : List ReqDescr) : Option ReqDescr :=
  (reqs.filter (fun r => isApiResource r ∧ r.method = m ∧ r.url = u)).head?

/-- JSON values on which the capture guard
`postDataJSON && typeof postDataJSON === 'object'` holds (arrays and objects;
`null` is excluded by truthiness, primitives by `typeof`). -/
def jvalIsObjLike : JVal → Bool
  | .arr _ => true
  | .obj _ => true
  | _ => false

/-- Modelled from the spec (§4.3): the top-level key typing table
"each top-level key maps to one of {string, number, boolean, array, object};
null→string", stated independently of the code for comparison. -/
def specTopLevelType : JVal → String
  | .str _ => "string"
  | .num _ => "number"
  | .bool _ => "boolean"
  | .arr _ => "array"
  | .obj _ => "object"
  | .null => "string"

/-- A live page holding `n` identical plain forms and nothing else (used to
exhibit the unbounded `forms` component of a snapshot). -/
def pageWithForms (n : Nat) : LivePage :=
  { buttons := [], links := [], forms := List.replicate n { inputs := [], submitText := "" }
    titleText := "", url := "http://example.test/"
    clickTarget := fun _ => false, fillTarget := fun _ => false }

/-- Structural reformulation of the `requestfinished` fold: the records
captured from `reqs` when the keys in `seen` have already been taken. -/
def captureList : List ReqDescr → List String → List DiscoveredApi
  | [], _ => []
  | r :: rest, seen =>
    if isApiResource r then
      if reqKey r.method r.url ∈ seen then captureList rest seen
      else recordOf r :: captureList rest (reqKey r.method r.url :: seen)
    else captureList rest seen

/-! ## Character- and string-level lemmas -/

theorem isUpperAscii_lowerChar (c : Char) : isUpperAscii (lowerChar c) = false := by
  unfold lowerChar
  split <;> simp_all [isUpperAscii]

theorem lowerChar_eq_of_notUpper (c : Char) (h : isUpperAscii c = false) :
    lowerChar c = c := by
  unfold lowerChar
  split <;> simp_all [isUpperAscii]

theorem lowerChar_idem (c : Char) : lowerChar (lowerChar c) = lowerChar c :=
  lowerChar_eq_of_notUpper _ (isUpperAscii_lowerChar c)

theorem data_append (a b : String) : (a ++ b).data = a.data ++ b.data := rfl

theorem lowerFixed_data {s : String} : lowerFixed s ↔ s.data.map lowerChar = s.data := by
  simp only [lowerFixed, jsLower, String.ext_iff]

theorem lowerFixed_mk {cs : List Char} (h : cs.map lowerChar = cs) :
    lowerFixed ⟨cs⟩ := lowerFixed_data.mpr h

theorem lowerFixed_append {a b : String} (ha : lowerFixed a) (hb : lowerFixed b) :
    lowerFixed (a ++ b) := by
  rw [lowerFixed_data] at *
  simp only [data_append, List.map_append, ha, hb]

theorem lowerFixed_slug (s : String) : lowerFixed (slug s) := by
  apply lowerFixed_mk
  simp only [slug, List.map_map]
  exact List.map_congr_left (fun c _ => lowerChar_idem c)

theorem lowerChar_decDigit (d : Nat) : lowerChar (decDigit d) = decDigit d := by
  unfold decDigit
  split_ifs <;> rfl

theorem decDigitsAux_lowerChar :
    ∀ (f a : Nat), ∀ c ∈ decDigitsAux f a, lowerChar c = c := by
  intro f
  induction f with
  | zero => intro a c hc; simp [decDigitsAux] at hc
  | succ f ih =>
    intro a c hc
    simp only [decDigitsAux] at hc
    by_cases h : a < 10
    · simp [h] at hc
      subst hc
      exact lowerChar_decDigit a
    · simp [h, List.mem_append] at hc
      rcases hc with hc | hc
      · exact ih _ _ hc
      · subst hc
        exact lowerChar_decDigit _

theorem lowerFixed_of_all {cs : List Char} (h : ∀ c ∈ cs, lowerChar c = c) :
    lowerFixed ⟨cs⟩ :=
  lowerFixed_mk ((List.map_congr_left h).trans (List.map_id cs))

theorem lowerFixed_decStr (n : Nat) : lowerFixed (decStr n) :=
  lowerFixed_of_all (fun c hc => decDigitsAux_lowerChar _ _ c hc)

theorem decDigit_bounded_inj :
    ∀ a < 10, ∀ b < 10, decDigit a = decDigit b → a = b := by decide

theorem decDigitsAux_ne_nil (f a : Nat) (h : a < f) : decDigitsAux f a ≠ [] := by
  cases f with
  | zero => omega
  | succ f =>
    simp only [decDigitsAux]
    by_cases h10 : a < 10 <;> simp [h10]

theorem decDigitsAux_inj (a : Nat) :
    ∀ b fa fb, a < fa → b < fb → decDigitsAux fa a = decDigitsAux fb b → a = b := by
  induction a using Nat.strong_induction_on with
  | _ a ih =>
    intro b fa fb hfa hfb heq
    cases fa with
    | zero => omega
    | succ fa =>
      cases fb with
      | zero => omega
      | succ fb =>
        simp only [decDigitsAux] at heq
        by_cases ha : a < 10 <;> by_cases hb : b < 10
        · simp [ha, hb] at heq
          exact decDigit_bounded_inj a ha b hb heq
        · exfalso
          simp only [if_pos ha, if_neg hb] at heq
          have hlen := congrArg List.length heq
          simp only [List.length_append, List.length_cons, List.length_nil] at hlen
          have hnil : decDigitsAux fb (b / 10) = [] :=
            List.length_eq_zero.mp (by omega)
          have hblt : b / 10 < b := Nat.div_lt_self (by omega) (by omega)
          exact decDigitsAux_ne_nil fb (b / 10) (by omega) hnil
        · exfalso
          simp only [if_neg ha, if_pos hb] at heq
          have hlen := congrArg List.length heq
          simp only [List.length_append, List.length_cons, List.length_nil] at hlen
          have hnil : decDigitsAux fa (a / 10) = [] :=
            List.length_eq_zero.mp (by omega)
          have halt : a / 10 < a := Nat.div_lt_self (by omega) (by omega)
          exact decDigitsAux_ne_nil fa (a / 10) (by omega) hnil
        · simp only [if_neg ha, if_neg hb] at heq
          have hrev := congrArg List.reverse heq
          simp only [List.reverse_append, List.reverse_cons, List.reverse_nil,
            List.nil_append, List.singleton_append, List.cons.injEq] at hrev
          have hmod : a % 10 = b % 10 :=
            decDigit_bounded_inj _ (Nat.mod_lt a (by omega)) _ (Nat.mod_lt b (by omega)) hrev.1
          have hda : a / 10 < a := Nat.div_lt_self (by omega) (by omega)
          have hdb : b / 10 < b := Nat.div_lt_self (by omega) (by omega)
          have htail : decDigitsAux fa (a / 10) = decDigitsAux fb (b / 10) := by
            have := congrArg List.reverse hrev.2
            simpa using this
          have hdiv : a / 10 = b / 10 :=
            ih (a / 10) hda (b / 10) fa fb (by omega) (by omega) htail
          omega

theorem decStr_injective : Function.Injective decStr := by
  intro a b h
  have hd : decDigitsAux (a + 1) a = decDigitsAux (b + 1) b := by
    simpa [decStr, String.ext_iff] using h
  exact decDigitsAux_inj a b (a + 1) (b + 1) (by omega) (by omega) hd

theorem underscore_data : ("_" : String).data = ['_'] := rfl

theorem decStr_data_ne_nil (n : Nat) : (decStr n).data ≠ [] :=
  decDigitsAux_ne_nil (n + 1) n (by omega)

theorem nameCandidate_injective (base : String) :
    Function.Injective (nameCandidate base) := by
  intro j k h
  match j, k with
  | 0, 0 => rfl
  | 0, k + 1 =>
    exfalso
    have hlen := congrArg (fun s => s.data.length) h
    have hp := List.length_pos.mpr (decStr_data_ne_nil (k + 2))
    simp only [nameCandidate, data_append, underscore_data, List.length_append,
      List.length_cons, List.length_nil] at hlen
    omega
  | j + 1, 0 =>
    exfalso
    have hlen := congrArg (fun s => s.data.length) h
    have hp := List.length_pos.mpr (decStr_data_ne_nil (j + 2))
    simp only [nameCandidate, data_append, underscore_data, List.length_append,
      List.length_cons, List.length_nil] at hlen
    omega
  | j + 1, k + 1 =>
    have hd : base.data ++ ['_'] ++ (decStr (j + 2)).data
        = base.data ++ ['_'] ++ (decStr (k + 2)).data := by
      have := congrArg String.data h
      simpa [nameCandidate, data_append, underscore_data] using this
    have htail : (decStr (j + 2)).data = (decStr (k + 2)).data :=
      List.append_cancel_left hd
    have : j + 2 = k + 2 := decStr_injective (String.ext htail)
    omega

theorem lowerFixed_nameCandidate {base : String} (hb : lowerFixed base) (j : Nat) :
    lowerFixed (nameCandidate base j) := by
  cases j with
  | zero => exact hb
  | succ j =>
    exact lowerFixed_append (lowerFixed_append hb (by rfl)) (lowerFixed_decStr (j + 2))

theorem ensureUniqueFrom_candidate (base : String) (used : List String) :
    ∀ fuel k, ∃ j, ensureUniqueFrom base used fuel k = nameCandidate base j := by
  intro fuel
  induction fuel with
  | zero => intro k; exact ⟨k, rfl⟩
  | succ fuel ih =>
    intro k
    simp only [ensureUniqueFrom]
    by_cases h : nameCandidate base k ∈ used
    · simpa [h] using ih (k + 1)
    · exact ⟨k, by simp [h]⟩

theorem ensureUniqueFrom_not_mem (base : String) (used : List String) :
    ∀ fuel k, (∃ j, j < fuel ∧ nameCandidate base (k + j) ∉ used) →
      ensureUniqueFrom base used fuel k ∉ used := by
  intro fuel
  induction fuel with
  | zero =>
    intro k hex
    obtain ⟨j, hj, _⟩ := hex
    omega
  | succ fuel ih =>
    intro k hex
    obtain ⟨j, hj, hfree⟩ := hex
    simp only [ensureUniqueFrom]
    by_cases h : nameCandidate base k ∈ used
    · simp only [if_pos h]
      apply ih (k + 1)
      cases j with
      | zero => exact absurd h (by simpa using hfree)
      | succ j =>
        exact ⟨j, by omega, by
          have : k + 1 + j = k + (j + 1) := by omega
          rw [this]; exact hfree⟩
    · simpa [h] using h

theorem exists_free_candidate (base : String) (used : List String) :
    ∃ j, j < used.length + 1 ∧ nameCandidate base (0 + j) ∉ used := by
  by_contra hc
  push_neg at hc
  have hnd : ((List.range (used.length + 1)).map (nameCandidate base)).Nodup :=
    (List.nodup_range _).map (nameCandidate_injective base)
  have hsub : (List.range (used.length + 1)).map (nameCandidate base) ⊆ used := by
    intro x hx
    simp only [List.mem_map, List.mem_range] at hx
    obtain ⟨j, hj, rfl⟩ := hx
    simpa using hc j hj
  have hle := (hnd.subperm hsub).length_le
  simp at hle

theorem ensureUnique_not_mem (base : String) (used : List String) :
    ensureUnique base used ∉ used := by
  unfold ensureUnique
  exact ensureUniqueFrom_not_mem base used (used.length + 1) 0 (exists_free_candidate base used)

theorem ensureUnique_candidate (base : String) (used : List String) :
    ∃ j, ensureUnique base used = nameCandidate base j :=
  ensureUniqueFrom_candidate base used (used.length + 1) 0

theorem lowerFixed_ensureUnique {base : String} (hb : lowerFixed base)
    (used : List String) : lowerFixed (ensureUnique base used) := by
  obtain ⟨j, hj⟩ := ensureUnique_candidate base used
  rw [hj]
  exact lowerFixed_nameCandidate hb j

/-! ## Invariants of the synthesizer's naming loops -/

theorem lowerFixed_empty : lowerFixed "" := by rfl

theorem lowerFixed_jsOr {a b : String} (ha : lowerFixed a) (hb : lowerFixed b) :
    lowerFixed (jsOr a b) := by
  unfold jsOr
  split <;> assumption

theorem lowerFixed_buttonBase (btn : ButtonRec) : lowerFixed (buttonBase btn) := by
  unfold buttonBase
  apply lowerFixed_jsOr
  · split <;> first | exact lowerFixed_empty | exact lowerFixed_slug _
  · cases btn.id with
    | none => exact lowerFixed_empty
    | some s =>
      simp only
      split <;> first | exact lowerFixed_empty | exact lowerFixed_slug _

theorem lowerFixed_linkPathSlug (href : String) : lowerFixed (linkPathSlug href) :=
  lowerFixed_jsOr (lowerFixed_slug _) (by rfl)

theorem lowerFixed_linkBase (link : LinkRec) : lowerFixed (linkBase link) := by
  unfold linkBase
  apply lowerFixed_jsOr
  · split <;> first | exact lowerFixed_empty | exact lowerFixed_slug _
  · apply lowerFixed_jsOr
    · cases link.id with
      | none => exact lowerFixed_empty
      | some s =>
        simp only
        split <;> first | exact lowerFixed_empty | exact lowerFixed_slug _
    · exact lowerFixed_linkPathSlug _

theorem formActionsFrom_names {forms : List FormRec}
    (hlab : ∀ f ∈ forms, f.submitLabel ≠ "") :
    ∀ idx, (formActionsFrom idx forms).map (fun a => a.action)
      = forms.map (fun f => slug f.submitLabel) := by
  induction forms with
  | nil => intro idx; rfl
  | cons f rest ih =>
    intro idx
    have hf : f.submitLabel ≠ "" := hlab f (by simp)
    simp only [formActionsFrom, List.map_cons, formAction, if_neg hf]
    exact congrArg _ (ih (fun g hg => hlab g (by simp [hg])) (idx + 1))

theorem formActionsFrom_endpoint {forms : List FormRec} :
    ∀ idx, ∀ a ∈ formActionsFrom idx forms,
      a.endpoint = agentBasePath ++ "/" ++ a.action := by
  induction forms with
  | nil => intro idx a ha; simp [formActionsFrom] at ha
  | cons f rest ih =>
    intro idx a ha
    simp only [formActionsFrom, List.mem_cons] at ha
    rcases ha with rfl | ha
    · rfl
    · exact ih (idx + 1) a ha

theorem formActionsFrom_method {forms : List FormRec} :
    ∀ idx, ∀ a ∈ formActionsFrom idx forms, ∃ f ∈ forms, a.method = f.method := by
  induction forms with
  | nil => intro idx a ha; simp [formActionsFrom] at ha
  | cons f rest ih =>
    intro idx a ha
    simp only [formActionsFrom, List.mem_cons] at ha
    rcases ha with rfl | ha
    · exact ⟨f, by simp, rfl⟩
    · obtain ⟨g, hg, hm⟩ := ih (idx + 1) a ha
      exact ⟨g, by simp [hg], hm⟩

theorem buttonActions_spec (forms : List FormRec) :
    ∀ (bs : List ButtonRec) (idx : Nat) (used : List String),
      (((buttonActions forms bs idx used).1.map (fun a => a.action)).Nodup
        ∧ (∀ n ∈ (buttonActions forms bs idx used).1.map (fun a => a.action),
            n ∉ used ∧ lowerFixed n))
      ∧ (∀ x, x ∈ (buttonActions forms bs idx used).2
          ↔ x ∈ (buttonActions forms bs idx used).1.map (fun a => a.action) ∨ x ∈ used) := by
  intro bs
  induction bs with
  | nil =>
    intro idx used
    simp [buttonActions]
  | cons btn rest ih =>
    intro idx used
    by_cases hskip : btn.inForm ∧ buttonBase btn ≠ "" ∧ buttonBase btn ∈ formActionNames forms
    · simpa [buttonActions, hskip] using ih (idx + 1) used
    · have hnm := ensureUnique_not_mem
        (jsOr (buttonBase btn) ("button_" ++ decStr (idx + 1))) used
      have hlf : lowerFixed
          (ensureUnique (jsOr (buttonBase btn) ("button_" ++ decStr (idx + 1))) used) :=
        lowerFixed_ensureUnique
          (lowerFixed_jsOr (lowerFixed_buttonBase btn)
            (lowerFixed_append (by rfl) (lowerFixed_decStr (idx + 1)))) used
      obtain ⟨⟨hnd, hnotmem⟩, hused⟩ :=
        ih (idx + 1)
          (ensureUnique (jsOr (buttonBase btn) ("button_" ++ decStr (idx + 1))) used :: used)
      simp only [buttonActions, if_neg hskip, List.map_cons, List.nodup_cons]
      refine ⟨⟨⟨?_, hnd⟩, ?_⟩, ?_⟩
      · intro hmem
        exact ((hnotmem _ hmem).1) (by simp)
      · intro n hn
        simp only [List.mem_cons] at hn
        rcases hn with rfl | hn
        · exact ⟨hnm, hlf⟩
        · have := hnotmem n hn
          exact ⟨fun hc => this.1 (by simp [hc]), this.2⟩
      · intro x
        rw [hused x]
        simp only [List.mem_cons]
        tauto

theorem buttonActions_endpoint (forms : List FormRec) :
    ∀ (bs : List ButtonRec) (idx : Nat) (used : List String),
      ∀ a ∈ (buttonActions forms bs idx used).1,
        a.endpoint = agentBasePath ++ "/" ++ a.action ∧ a.method = "POST" := by
  intro bs
  induction bs with
  | nil => intro idx used a ha; simp [buttonActions] at ha
  | cons btn rest ih =>
    intro idx used a ha
    by_cases hskip : btn.inForm ∧ buttonBase btn ≠ "" ∧ buttonBase btn ∈ formActionNames forms
    · exact ih (idx + 1) used a (by simpa [buttonActions, hskip] using ha)
    · simp only [buttonActions, if_neg hskip, List.mem_cons] at ha
      rcases ha with rfl | ha
      · exact ⟨rfl, rfl⟩
      · exact ih (idx + 1) _ a ha

theorem linkActions_spec :
    ∀ (ls : List LinkRec) (used : List String),
      (((linkActions ls used).1.map (fun a => a.action)).Nodup
        ∧ (∀ n ∈ (linkActions ls used).1.map (fun a => a.action),
            n ∉ used ∧ lowerFixed n))
      ∧ (∀ x, x ∈ (linkActions ls used).2
          ↔ x ∈ (linkActions ls used).1.map (fun a => a.action) ∨ x ∈ used) := by
  intro ls
  induction ls with
  | nil =>
    intro used
    simp [linkActions]
  | cons link rest ih =>
    intro used
    have hnm := ensureUnique_not_mem (linkBase link) used
    have hlf : lowerFixed (ensureUnique (linkBase link) used) :=
      lowerFixed_ensureUnique (lowerFixed_linkBase link) used
    obtain ⟨⟨hnd, hnotmem⟩, hused⟩ := ih (ensureUnique (linkBase link) used :: used)
    simp only [linkActions, List.map_cons, List.nodup_cons]
    refine ⟨⟨⟨?_, hnd⟩, ?_⟩, ?_⟩
    · intro hmem
      exact ((hnotmem _ hmem).1) (by simp)
    · intro n hn
      simp only [List.mem_cons] at hn
      rcases hn with rfl | hn
      · exact ⟨hnm, hlf⟩
      · have := hnotmem n hn
        exact ⟨fun hc => this.1 (by simp [hc]), this.2⟩
    · intro x
      rw [hused x]
      simp only [List.mem_cons]
      tauto

theorem linkActions_endpoint :
    ∀ (ls : List LinkRec) (used : List String),
      ∀ a ∈ (linkActions ls used).1,
        a.endpoint = agentBasePath ++ "/" ++ a.action ∧ a.method = "GET" := by
  intro ls
  induction ls with
  | nil => intro used a ha; simp [linkActions] at ha
  | cons link rest ih =>
    intro used a ha
    simp only [linkActions, List.mem_cons] at ha
    rcases ha with rfl | ha
    · exact ⟨rfl, rfl⟩
    · exact ih _ a ha

theorem generateContract_names_spec (gs : Groups) (ttl : String) (ctx : Option String)
    (hlab : ∀ f ∈ gs.forms, f.submitLabel ≠ "")
    (hdist : (gs.forms.map (fun f => slug f.submitLabel)).Nodup) :
    ((generateContract gs ttl ctx).actions.map (fun a => a.action)).Nodup
    ∧ ∀ n ∈ (generateContract gs ttl ctx).actions.map (fun a => a.action), lowerFixed n := by
  have hform := formActionsFrom_names hlab 0
  obtain ⟨⟨bnd, bnot⟩, bused⟩ :=
    buttonActions_spec gs.forms gs.buttons 0
      ((formActionsFrom 0 gs.forms).map (fun a => a.action))
  obtain ⟨⟨lnd, lnot⟩, _⟩ :=
    linkActions_spec gs.links
      (buttonActions gs.forms gs.buttons 0
        ((formActionsFrom 0 gs.forms).map (fun a => a.action))).2
  have hfnd : ((formActionsFrom 0 gs.forms).map (fun a => a.action)).Nodup := by
    rw [hform]; exact hdist
  have hflf : ∀ n ∈ (formActionsFrom 0 gs.forms).map (fun a => a.action), lowerFixed n := by
    rw [hform]
    intro n hn
    simp only [List.mem_map] at hn
    obtain ⟨f, _, rfl⟩ := hn
    exact lowerFixed_slug _
  constructor
  · simp only [generateContract, List.map_append, List.nodup_append]
    refine ⟨⟨hfnd, bnd, ?_⟩, lnd, ?_⟩
    · intro n hn hmem
      exact (bnot n hmem).1 hn
    · intro n hn hmem
      have hn2 := (lnot n hmem).1
      rw [bused n] at hn2
      simp only [List.mem_append] at hn
      tauto
  · intro n hn
    simp only [generateContract, List.map_append, List.mem_append] at hn
    rcases hn with (hn | hn) | hn
    · exact hflf n hn
    · exact (bnot n hn).2
    · exact (lnot n hn).2

/-- C1 (amended): provided the forms of the page carry pairwise distinct
(slugified, non-empty) submit labels, every action name in the contract —
form-, button- and link-derived alike — is unique case-insensitively within
the call. -/
theorem generateContract_names_ci_unique (gs : Groups) (ttl : String) (ctx : Option String)
    (hlab : ∀ f ∈ gs.forms, f.submitLabel ≠ "")
    (hdist : (gs.forms.map (fun f => slug f.submitLabel)).Nodup) :
    ((generateContract gs ttl ctx).actions.map (fun a => a.action)).Pairwise
      (fun a b => jsLower a ≠ jsLower b) := by
  obtain ⟨hnd, hlf⟩ := generateContract_names_spec gs ttl ctx hlab hdist
  refine hnd.imp_of_mem ?_
  intro a b ha hb hne
  rw [hlf a ha, hlf b hb]
  exact hne

/-- C1 (witness for the amended theorem): a page with two distinctly
labelled forms, one button and one link. -/
theorem generateContract_names_ci_unique_witness :
    ((∀ f ∈ (⟨[⟨"", "POST", [], "Buy Now", none, none⟩, ⟨"", "GET", [], "Search", none, none⟩],
        [⟨"Buy Now", none, none, "button", "submit", true⟩],
        [⟨"/cart", "Cart", none, none⟩]⟩ : Groups).forms, f.submitLabel ≠ "")
      ∧ ((⟨[⟨"", "POST", [], "Buy Now", none, none⟩, ⟨"", "GET", [], "Search", none, none⟩],
        [⟨"Buy Now", none, none, "button", "submit", true⟩],
        [⟨"/cart", "Cart", none, none⟩]⟩ : Groups).forms.map
          (fun f => slug f.submitLabel)).Nodup)
    ∧ ((generateContract ⟨[⟨"", "POST", [], "Buy Now", none, none⟩, ⟨"", "GET", [], "Search", none, none⟩],
        [⟨"Buy Now", none, none, "button", "submit", true⟩],
        [⟨"/cart", "Cart", none, none⟩]⟩ "Shop" none).actions.map
          (fun a => a.action)).Pairwise (fun a b => jsLower a ≠ jsLower b) :=
  ⟨⟨by decide, by decide⟩,
    generateContract_names_ci_unique _ "Shop" none (by decide) (by decide)⟩

/-- C1 (counterexample to the claim as stated): two forms whose submit
buttons both read `"Go"` produce the duplicate action names `go`, `go` —
form-derived names bypass `ensureUnique`. -/
theorem generateContract_dup_form_names :
    ((generateContract ⟨[⟨"", "POST", [], "Go", none, none⟩, ⟨"", "POST", [], "Go", none, none⟩],
        [], []⟩ "" none).actions.map (fun a => a.action)) = ["go", "go"]
    ∧ ¬ ((generateContract ⟨[⟨"", "POST", [], "Go", none, none⟩, ⟨"", "POST", [], "Go", none, none⟩],
        [], []⟩ "" none).actions.map (fun a => a.action)).Pairwise
          (fun a b => jsLower a ≠ jsLower b) := by
  constructor
  · decide
  · decide

/-- C10: every action in the `actions` list has
`endpoint = AGENT_PREFIX + '/' + action`, i.e. `"/agent/"` followed by
exactly its own name. -/
theorem generateContract_endpoint_agent (gs : Groups) (ttl : String) (ctx : Option String) :
    ∀ a ∈ (generateContract gs ttl ctx).actions, a.endpoint = "/agent/" ++ a.action := by
  intro a ha
  have hsplit : a.endpoint = agentBasePath ++ "/" ++ a.action → a.endpoint = "/agent/" ++ a.action := by
    intro h
    rw [h, String.append_assoc]
    rfl
  simp only [generateContract, List.mem_append] at ha
  rcases ha with (ha | ha) | ha
  · exact hsplit (formActionsFrom_endpoint 0 a ha)
  · exact hsplit (buttonActions_endpoint gs.forms gs.buttons 0 _ a ha).1
  · exact hsplit (linkActions_endpoint gs.links _ a ha).1

/-- C10 (witness): the form action of a single-form page sits at
`/agent/go`. -/
theorem generateContract_endpoint_agent_witness :
    ((⟨"go", "POST", "/agent/go", [], "Submit: Go"⟩ : ActionRec)
        ∈ (generateContract ⟨[⟨"", "POST", [], "Go", none, none⟩], [], []⟩ "" none).actions)
    ∧ (⟨"go", "POST", "/agent/go", [], "Submit: Go"⟩ : ActionRec).endpoint
        = "/agent/" ++ (⟨"go", "POST", "/agent/go", [], "Submit: Go"⟩ : ActionRec).action :=
  ⟨by decide,
    generateContract_endpoint_agent ⟨[⟨"", "POST", [], "Go", none, none⟩], [], []⟩ "" none
      _ (by decide)⟩

/-- C8 (amended): on a page whose extracted groups are exactly two
labelless, id-less links whose hrefs reduce to the same truncated path slug
`X` — no forms or buttons, so no earlier action has claimed a name — the
contract holds exactly two link actions named `X` and `X_2`. -/
theorem generateContract_link_slug_collision (l1 l2 : LinkRec) (ttl : String)
    (ctx : Option String)
    (h1t : l1.text = "") (h1i : l1.id = none)
    (h2t : l2.text = "") (h2i : l2.id = none)
    (hs : linkPathSlug l2.href = linkPathSlug l1.href) :
    (generateContract ⟨[], [], [l1, l2]⟩ ttl ctx).actions.map (fun a => a.action)
      = [linkPathSlug l1.href, linkPathSlug l1.href ++ "_2"] := by
  have hb1 : linkBase l1 = linkPathSlug l1.href := by
    simp [linkBase, h1t, h1i, jsOr]
  have hb2 : linkBase l2 = linkPathSlug l1.href := by
    simp [linkBase, h2t, h2i, jsOr, hs]
  have hne : nameCandidate (linkPathSlug l1.href) 1 ≠ linkPathSlug l1.href := by
    intro hc
    have h01 := nameCandidate_injective (linkPathSlug l1.href)
      (show nameCandidate _ 1 = nameCandidate _ 0 from hc)
    omega
  have e1 : ensureUnique (linkPathSlug l1.href) [] = linkPathSlug l1.href := by
    simp [ensureUnique, ensureUniqueFrom, nameCandidate]
  have e2 : ensureUnique (linkPathSlug l1.href) [linkPathSlug l1.href]
      = linkPathSlug l1.href ++ "_2" := by
    have hstep : nameCandidate (linkPathSlug l1.href) 0 ∈ [linkPathSlug l1.href] := by
      simp [nameCandidate]
    have hstep2 : nameCandidate (linkPathSlug l1.href) 1 ∉ [linkPathSlug l1.href] := by
      simpa using hne
    show ensureUniqueFrom (linkPathSlug l1.href) [linkPathSlug l1.href] 2 0
      = linkPathSlug l1.href ++ "_2"
    simp only [ensureUniqueFrom]
    rw [if_pos hstep, if_neg hstep2]
    rw [show nameCandidate (linkPathSlug l1.href) 1
        = linkPathSlug l1.href ++ "_" ++ decStr 2 from rfl]
    rw [String.append_assoc]
    rfl
  simp only [generateContract, formActionsFrom, buttonActions, linkActions,
    List.map_nil, List.map_cons, hb1, hb2, e1, e2]
  simp

/-- C8 (witness): two bare links to `/x/y` produce actions `_x_y` and
`_x_y_2`. -/
theorem generateContract_link_slug_collision_witness :
    ((⟨"/x/y", "", none, none⟩ : LinkRec).text = ""
      ∧ (⟨"/x/y", "", none, none⟩ : LinkRec).id = none
      ∧ linkPathSlug (⟨"/x/y", "", none, none⟩ : LinkRec).href
          = linkPathSlug (⟨"/x/y", "", none, none⟩ : LinkRec).href)
    ∧ (generateContract ⟨[], [], [⟨"/x/y", "", none, none⟩, ⟨"/x/y", "", none, none⟩]⟩
        "" none).actions.map (fun a => a.action)
      = [linkPathSlug (⟨"/x/y", "", none, none⟩ : LinkRec).href,
         linkPathSlug (⟨"/x/y", "", none, none⟩ : LinkRec).href ++ "_2"] :=
  ⟨⟨rfl, rfl, rfl⟩,
    generateContract_link_slug_collision _ _ "" none rfl rfl rfl rfl rfl⟩

/-- C8 (counterexample to the claim as stated): on a page that also carries a
standalone button whose label slugs to the same `X` (here `X = _x_y`,
markup `<button>_x_y</button><a href="/x/y"></a><a href="/x/y"></a>`), the
button is named first and the two labelless, id-less links come out `X_2`
and `X_3` — not `X` and `X_2` as claimed for every such page. -/
theorem generateContract_link_slug_collision_counterexample :
    linkPathSlug "/x/y" = "_x_y"
    ∧ (generateContract ⟨[], [⟨"_x_y", none, none, "button", "", false⟩],
        [⟨"/x/y", "", none, none⟩, ⟨"/x/y", "", none, none⟩]⟩ "" none).actions.map
        (fun a => a.action) = ["_x_y", "_x_y_2", "_x_y_3"]
    ∧ ((generateContract ⟨[], [⟨"_x_y", none, none, "button", "", false⟩],
        [⟨"/x/y", "", none, none⟩, ⟨"/x/y", "", none, none⟩]⟩ "" none).actions.filter
          (fun a => a.method = "GET")).map (fun a => a.action)
        = ["_x_y_2", "_x_y_3"]
    ∧ ["_x_y_2", "_x_y_3"] ≠ ["_x_y", "_x_y_2"] := by
  refine ⟨by decide, by decide, by decide, by decide⟩

/-- C2: the claimed fixed type table is the (dead) `inputTypeToSchema` map;
the extractor's actual expression misparenthesizes the JS conditional, so an
input with `type="number"` (and likewise `checkbox`) is extracted with field
type `string`, contradicting the table the source itself carries. -/
theorem extractedFieldType_table_bug :
    (extractForm ⟨none, none, [⟨some "amount", some "number", "INPUT", none⟩,
        ⟨some "subscribed", some "checkbox", "INPUT", none⟩], "", none, none⟩).inputs
      = [⟨"amount", "string", false⟩, ⟨"subscribed", "string", false⟩]
    ∧ extractedFieldType (some "number") "INPUT" = "string"
    ∧ inputTypeToSchema "number" = "number"
    ∧ extractedFieldType (some "checkbox") "INPUT" = "string"
    ∧ inputTypeToSchema "checkbox" = "boolean"
    ∧ (∀ t : Option String, ∀ tag : String,
        extractedFieldType t tag = "string") := by
  refine ⟨by decide, by decide, by decide, by decide, by decide, ?_⟩
  intro t tag
  cases hb : attrTruthy t || decide (jsLower tag = "select") <;>
    simp only [extractedFieldType, hb] <;> rfl

/-- C3 (counterexample to the claim as stated): a form with `method="put"`
is extracted with method `POST`, not `GET`. -/
theorem extractedFormMethod_put_counterexample :
    extractedFormMethod (some "put") = "POST"
    ∧ (extractForm ⟨none, some "put", [], "", none, none⟩).method ≠ "GET"
    ∧ (extractForm ⟨none, some "foo", [], "", none, none⟩).method = "POST" := by
  decide

/-- C3 (amended): the extracted method is GET exactly when the attribute is
missing, empty, or case-insensitively `get`; every other value — including
POST but also malformed ones such as `put` or `foo` — yields POST. -/
theorem extractedFormMethod_cases (m : Option String) :
    (extractedFormMethod m = "GET"
      ↔ (m = none ∨ m = some "" ∨ ∃ s, m = some s ∧ jsUpper s = "GET"))
    ∧ (extractedFormMethod m = "GET" ∨ extractedFormMethod m = "POST") := by
  cases m with
  | none =>
    constructor
    · exact ⟨fun _ => Or.inl rfl, fun _ => by decide⟩
    · left; rfl
  | some s =>
    by_cases hs : s = ""
    · subst hs
      constructor
      · exact ⟨fun _ => Or.inr (Or.inl rfl), fun _ => by decide⟩
      · left; rfl
    · by_cases hup : jsUpper s = "GET"
      · constructor
        · simp only [extractedFormMethod, attrStr, jsOr, if_neg hs, hup]
          simp [hs, hup]
        · left
          simp [extractedFormMethod, attrStr, jsOr, hs, hup]
      · constructor
        · simp only [extractedFormMethod, attrStr, jsOr, if_neg hs]
          simp [hs, hup]
        · right
          simp [extractedFormMethod, attrStr, jsOr, hs, hup]

/-- C5: with no live session, `click` and `fill` return the precondition
error at the guard (no page interaction is attempted), `click` can never
produce a resolution error in that state, and with a session present
neither operation can produce the precondition error — so "no session" and
"target not found" are told apart by the error class. -/
theorem click_fill_precondition (st : SessionState) (h : st.page = none)
    (d v : String) :
    click st d = .preconditionError launchErrMsg
    ∧ fill st d v = .preconditionError launchErrMsg
    ∧ (∀ m, click st d ≠ .resolutionError m)
    ∧ (∀ st2 p, st2.page = some p →
        (∀ m, click st2 d ≠ .preconditionError m)
        ∧ (∀ m, fill st2 d v ≠ .preconditionError m)) := by
  refine ⟨by simp [click, h], by simp [fill, h], by simp [click, h], ?_⟩
  intro st2 p h2
  constructor
  · intro m
    simp only [click, h2]
    split
    · simp
    · split <;> simp
  · intro m
    simp only [fill, h2]
    split <;> simp

/-- C5 (witness): the initial state (`browser = null`, `page = null`). -/
theorem click_fill_precondition_witness :
    ((⟨none, none⟩ : SessionState).page = none)
    ∧ (click ⟨none, none⟩ "Add to cart" = .preconditionError launchErrMsg
      ∧ fill ⟨none, none⟩ "Add to cart" "a@b.test" = .preconditionError launchErrMsg
      ∧ (∀ m, click ⟨none, none⟩ "Add to cart" ≠ .resolutionError m)
      ∧ (∀ st2 p, st2.page = some p →
          (∀ m, click st2 "Add to cart" ≠ .preconditionError m)
          ∧ (∀ m, fill st2 "Add to cart" "a@b.test" ≠ .preconditionError m))) :=
  ⟨rfl, click_fill_precondition ⟨none, none⟩ rfl "Add to cart" "a@b.test"⟩

/-- C9: `launch` while a browser is open is idempotent — it reports the
existing session with `ok = true` and leaves the browser and page slots of
the module state untouched. -/
theorem launch_idempotent (st : SessionState) (h : st.browser.isSome)
    (headed : Bool) :
    launch st headed = (st, { ok := true, message := "Browser already open" }) := by
  simp [launch, h]

/-- C9 (witness): relaunching over an open headless session. -/
theorem launch_idempotent_witness :
    ((⟨some true, some blankPage⟩ : SessionState).browser.isSome = true)
    ∧ launch ⟨some true, some blankPage⟩ false
        = (⟨some true, some blankPage⟩, { ok := true, message := "Browser already open" }) :=
  ⟨rfl, launch_idempotent ⟨some true, some blankPage⟩ rfl false⟩

/-- C7 (counterexample to the claim as stated): the `forms` component of a
snapshot is not truncated — no fixed constant bounds it over all pages
(`buttons` and `links` are sliced, `forms` is not). -/
theorem getSnapshot_forms_unbounded :
    ¬ ∃ C : Nat, ∀ p : LivePage, (getSnapshotOfPage p).forms.length ≤ C := by
  rintro ⟨C, hC⟩
  have hlen : (getSnapshotOfPage (pageWithForms (C + 1))).forms.length = C + 1 := by
    simp [getSnapshotOfPage, pageWithForms]
  have := hC (pageWithForms (C + 1))
  omega

/-- C7 (amended): the snapshot's `buttons` and `links` counts are capped (at
50 and 80) for every live page; its `forms` list is returned whole. -/
theorem getSnapshot_bounded_buttons_links (p : LivePage) :
    (getSnapshotOfPage p).buttons.length ≤ 50
    ∧ (getSnapshotOfPage p).links.length ≤ 80
    ∧ (getSnapshotOfPage p).forms.length = p.forms.length := by
  refine ⟨?_, ?_, ?_⟩
  · simp only [getSnapshotOfPage]
    exact List.length_take_le _ _
  · simp only [getSnapshotOfPage]
    exact List.length_take_le _ _
  · simp [getSnapshotOfPage]

/-! ## Dedup behaviour of the capture handler -/

theorem foldl_discoverStep_snd :
    ∀ (reqs : List ReqDescr) (seen : List String) (acc : List DiscoveredApi),
      (reqs.foldl discoverStep (seen, acc)).2 = acc ++ captureList reqs seen := by
  intro reqs
  induction reqs with
  | nil => intro seen acc; simp [captureList]
  | cons r rest ih =>
    intro seen acc
    simp only [List.foldl_cons, discoverStep, captureList]
    by_cases hr : isApiResource r
    · simp only [if_pos hr]
      by_cases hk : reqKey r.method r.url ∈ seen
      · simp only [if_pos hk, ih seen acc]
      · simp only [if_neg hk, ih]
        simp
    · simp only [if_neg hr, ih seen acc]

theorem discoveredApis_eq_captureList (reqs : List ReqDescr) :
    discoveredApis reqs = captureList reqs [] := by
  simpa using foldl_discoverStep_snd reqs [] []

theorem captureList_provenance :
    ∀ (reqs : List ReqDescr) (seen : List String),
      ∀ a ∈ captureList reqs seen, ∃ r ∈ reqs, isApiResource r ∧ a = recordOf r := by
  intro reqs
  induction reqs with
  | nil => intro seen a ha; simp [captureList] at ha
  | cons r rest ih =>
    intro seen a ha
    by_cases hr : isApiResource r
    · by_cases hk : reqKey r.method r.url ∈ seen
      · simp only [captureList, if_pos hr, if_pos hk] at ha
        obtain ⟨r2, hr2, h⟩ := ih seen a ha
        exact ⟨r2, by simp [hr2], h⟩
      · simp only [captureList, if_pos hr, if_neg hk, List.mem_cons] at ha
        rcases ha with rfl | ha
        · exact ⟨r, by simp, hr, rfl⟩
        · obtain ⟨r2, hr2, h⟩ := ih _ a ha
          exact ⟨r2, by simp [hr2], h⟩
    · simp only [captureList, if_neg hr] at ha
      obtain ⟨r2, hr2, h⟩ := ih seen a ha
      exact ⟨r2, by simp [hr2], h⟩

theorem captureList_filter_key :
    ∀ (reqs : List ReqDescr) (seen : List String) (k : String),
      (captureList reqs seen).filter (fun a => reqKey a.method a.url = k)
        = if k ∈ seen then []
          else ((reqs.filter (fun r => isApiResource r ∧ reqKey r.method r.url = k)).head?.map
              recordOf).toList := by
  intro reqs
  induction reqs with
  | nil =>
    intro seen k
    by_cases hks : k ∈ seen <;> simp [captureList, hks]
  | cons r rest ih =>
    intro seen k
    by_cases hr : isApiResource r
    · by_cases hk : reqKey r.method r.url ∈ seen
      · simp only [captureList, if_pos hr, if_pos hk]
        rw [ih]
        by_cases hks : k ∈ seen
        · simp [hks]
        · have hne : ¬(reqKey r.method r.url = k) := fun he => hks (he ▸ hk)
          simp [hks, List.filter_cons, hr, hne]
      · by_cases hkr : reqKey r.method r.url = k
        · simp only [captureList, if_pos hr, if_neg hk]
          rw [List.filter_cons, ih]
          have hkey : reqKey (recordOf r).method (recordOf r).url = k := hkr
          have hmem : k ∈ reqKey r.method r.url :: seen := by simp [hkr]
          have hknotseen : k ∉ seen := by rw [← hkr]; exact hk
          simp [hkey, hmem, hknotseen, List.filter_cons, hr, hkr]
        · simp only [captureList, if_pos hr, if_neg hk]
          rw [List.filter_cons, ih]
          have hkey : ¬(reqKey (recordOf r).method (recordOf r).url = k) := hkr
          have hmem : (k ∈ reqKey r.method r.url :: seen) ↔ k ∈ seen := by
            constructor
            · intro h
              rcases List.mem_cons.mp h with h | h
              · exact absurd h.symm hkr
              · exact h
            · intro h
              exact List.mem_cons_of_mem _ h
          by_cases hks : k ∈ seen
          · simp [hkey, hmem, hks, List.filter_cons, hr, hkr]
          · simp [hkey, hmem, hks, List.filter_cons, hr, hkr]
    · simp only [captureList, if_neg hr]
      rw [ih]
      have : (r :: rest).filter (fun r => isApiResource r ∧ reqKey r.method r.url = k)
          = rest.filter (fun r => isApiResource r ∧ reqKey r.method r.url = k) := by
        simp [List.filter_cons, hr]
      rw [this]

theorem append_space_inj :
    ∀ (a : List Char) (c b d : List Char), ' ' ∉ a → ' ' ∉ b →
      a ++ ' ' :: c = b ++ ' ' :: d → a = b ∧ c = d := by
  intro a
  induction a with
  | nil =>
    intro c b d _ hb he
    cases b with
    | nil => simpa using he
    | cons y b =>
      simp only [List.nil_append, List.cons_append, List.cons.injEq] at he
      exact absurd (by rw [← he.1]; simp : ' ' ∈ y :: b) hb
  | cons x a ih =>
    intro c b d ha hb he
    cases b with
    | nil =>
      simp only [List.cons_append, List.nil_append, List.cons.injEq] at he
      exact absurd (by rw [he.1]; simp : ' ' ∈ x :: a) ha
    | cons y b =>
      simp only [List.cons_append, List.cons.injEq] at he
      obtain ⟨rfl, he2⟩ := he
      have hrec := ih c b d (fun h => ha (by simp [h])) (fun h => hb (by simp [h])) he2
      exact ⟨by rw [hrec.1], hrec.2⟩

theorem reqKey_pair_iff (m1 u1 m2 u2 : String) (h1 : spaceFree m1) (h2 : spaceFree m2) :
    reqKey m1 u1 = reqKey m2 u2 ↔ m1 = m2 ∧ u1 = u2 := by
  constructor
  · intro he
    have hd : m1.data ++ ' ' :: u1.data = m2.data ++ ' ' :: u2.data := by
      have hdd := congrArg String.data he
      simpa [reqKey, data_append] using hdd
    obtain ⟨hmd, hud⟩ := append_space_inj m1.data u1.data m2.data u2.data h1 h2 hd
    exact ⟨String.ext hmd, String.ext hud⟩
  · rintro ⟨rfl, rfl⟩
    rfl

/-- C4: for a capture window seeing the request sequence `reqs` (HTTP
methods contain no space), as soon as some XHR/fetch request with a given
`(method, url)` pair exists — in particular when two share it — the
discovered-API list holds exactly one record for that pair, and it is the
record of the first-seen occurrence (so it carries that occurrence's sample
body); later duplicates are dropped. -/
theorem discoveredApis_dedup_first_seen (reqs : List ReqDescr) (m u : String)
    (hms : ∀ r ∈ reqs, spaceFree r.method) (hm : spaceFree m)
    (hex : ∃ r ∈ reqs, isApiResource r ∧ r.method = m ∧ r.url = u) :
    ∃ r, firstApiReq m u reqs = some r ∧ r.method = m ∧ r.url = u
      ∧ (discoveredApis reqs).filter (fun a => a.method = m ∧ a.url = u)
          = [recordOf r] := by
  have hfe : reqs.filter (fun r => isApiResource r ∧ r.method = m ∧ r.url = u)
      = reqs.filter (fun r => isApiResource r ∧ reqKey r.method r.url = reqKey m u) := by
    refine List.filter_congr (fun r hr => ?_)
    have hiff := reqKey_pair_iff r.method r.url m u (hms r hr) hm
    simp only [decide_eq_decide]
    tauto
  have hne : reqs.filter (fun r => isApiResource r ∧ r.method = m ∧ r.url = u) ≠ [] := by
    obtain ⟨r, hr, hapi, hmm, huu⟩ := hex
    intro h0
    have hmem2 : r ∈ reqs.filter (fun r => isApiResource r ∧ r.method = m ∧ r.url = u) :=
      List.mem_filter.mpr ⟨hr, by simp [hapi, hmm, huu]⟩
    rw [h0] at hmem2
    simp at hmem2
  obtain ⟨r0, hh⟩ : ∃ r0,
      (reqs.filter (fun r => isApiResource r ∧ r.method = m ∧ r.url = u)).head? = some r0 := by
    cases hcases : (reqs.filter (fun r => isApiResource r ∧ r.method = m ∧ r.url = u)).head? with
    | none => exact absurd (List.head?_eq_none_iff.mp hcases) hne
    | some r0 => exact ⟨r0, rfl⟩
  have hr0mem : r0 ∈ reqs.filter (fun r => isApiResource r ∧ r.method = m ∧ r.url = u) :=
    List.mem_of_mem_head? hh
  have hr0 := List.mem_filter.mp hr0mem
  have hr0m : r0.method = m := by
    have := hr0.2
    simp at this
    exact this.2.1
  have hr0u : r0.url = u := by
    have := hr0.2
    simp at this
    exact this.2.2
  refine ⟨r0, hh, hr0m, hr0u, ?_⟩
  have hrecfilter : (discoveredApis reqs).filter (fun a => a.method = m ∧ a.url = u)
      = (discoveredApis reqs).filter (fun a => reqKey a.method a.url = reqKey m u) := by
    refine List.filter_congr (fun a ha => ?_)
    rw [discoveredApis_eq_captureList] at ha
    obtain ⟨r, hr, _, rfl⟩ := captureList_provenance reqs [] a ha
    have hiff := reqKey_pair_iff r.method r.url m u (hms r hr) hm
    simp only [decide_eq_decide]
    exact hiff.symm
  rw [hrecfilter, discoveredApis_eq_captureList,
    captureList_filter_key reqs [] (reqKey m u)]
  rw [if_neg (by simp)]
  rw [← hfe, hh]
  rfl

/-- C4 (witness): two POSTs to the same URL with different bodies collapse
to one record carrying the first body. -/
theorem discoveredApis_dedup_first_seen_witness :
    ((∀ r ∈ [(⟨"xhr", "https://api.test/search", "POST", some "q=red", none,
          some "application/x-www-form-urlencoded"⟩ : ReqDescr),
        ⟨"xhr", "https://api.test/search", "POST", some "q=blue", none,
          some "application/x-www-form-urlencoded"⟩], spaceFree r.method)
      ∧ spaceFree "POST"
      ∧ (∃ r ∈ [(⟨"xhr", "https://api.test/search", "POST", some "q=red", none,
            some "application/x-www-form-urlencoded"⟩ : ReqDescr),
          ⟨"xhr", "https://api.test/search", "POST", some "q=blue", none,
            some "application/x-www-form-urlencoded"⟩],
          isApiResource r ∧ r.method = "POST" ∧ r.url = "https://api.test/search"))
    ∧ (∃ r, firstApiReq "POST" "https://api.test/search"
          [(⟨"xhr", "https://api.test/search", "POST", some "q=red", none,
              some "application/x-www-form-urlencoded"⟩ : ReqDescr),
            ⟨"xhr", "https://api.test/search", "POST", some "q=blue", none,
              some "application/x-www-form-urlencoded"⟩] = some r
        ∧ r.method = "POST" ∧ r.url = "https://api.test/search"
        ∧ (discoveredApis
            [(⟨"xhr", "https://api.test/search", "POST", some "q=red", none,
                some "application/x-www-form-urlencoded"⟩ : ReqDescr),
              ⟨"xhr", "https://api.test/search", "POST", some "q=blue", none,
                some "application/x-www-form-urlencoded"⟩]).filter
              (fun a => a.method = "POST" ∧ a.url = "https://api.test/search")
            = [recordOf r]) :=
  ⟨⟨by decide, by decide, by decide⟩,
    discoveredApis_dedup_first_seen _ "POST" "https://api.test/search"
      (by decide) (by decide) (by decide)⟩

theorem topValType_eq_spec (v : JVal) : topValType v = specTopLevelType v := by
  cases v <;> rfl

/-- C6 (amended): a request whose body is not JSON-decodable (or decodes to a
non-object value, `null` included) yields a record with **no** `bodySchema` —
the capture guard filters such bodies out before `inferSchemaFromBody`, whose
synthetic `_body` fallback is reachable only on direct non-object input; for
a decodable object body every top-level key maps through the
{string, number, boolean, array, object} table with null→string, as on the
spec's example body. -/
theorem bodySchema_fallback_behaviour (r : ReqDescr) (v : JVal)
    (hnd : r.postDataJSON = none ∨ (r.postDataJSON = some v ∧ jvalIsObjLike v = false)) :
    (recordOf r).bodySchema = none
    ∧ (∀ w : JVal, jvalIsObjLike w = false →
        inferSchemaFromBody w = [("_body", jsTypeof w)])
    ∧ (∀ kvs : List (String × JVal),
        inferSchemaFromBody (JVal.obj kvs)
          = kvs.map (fun kv => (kv.1, specTopLevelType kv.2)))
    ∧ inferSchemaFromBody (JVal.obj [("q", .str "red shoes"), ("max", .num 100),
        ("tags", .arr [.str "a"]), ("active", .bool true), ("note", .null)])
      = [("q", "string"), ("max", "number"), ("tags", "array"),
         ("active", "boolean"), ("note", "string")] := by
  refine ⟨?_, ?_, ?_, by decide⟩
  · rcases hnd with h | ⟨h, hobj⟩
    · simp [recordOf, h]
    · simp only [recordOf, h]
      have hguard : (jvalTruthy v && decide (jsTypeof v = "object")) = false := by
        cases v <;> simp_all [jvalTruthy, jsTypeof, jvalIsObjLike]
      simp [hguard]
  · intro w hw
    cases w <;> simp_all [jvalIsObjLike, inferSchemaFromBody, jsTypeof]
  · intro kvs
    simp only [inferSchemaFromBody]
    exact List.map_congr_left (fun kv _ => by rw [topValType_eq_spec])

/-- C6 (witness): a body decoding to the number `5`. -/
theorem bodySchema_fallback_behaviour_witness :
    ((⟨"xhr", "https://api.test/n", "POST", some "5", some (.num 5), none⟩ : ReqDescr).postDataJSON = none
      ∨ ((⟨"xhr", "https://api.test/n", "POST", some "5", some (.num 5), none⟩ : ReqDescr).postDataJSON
            = some (.num 5)
          ∧ jvalIsObjLike (.num 5) = false))
    ∧ ((recordOf ⟨"xhr", "https://api.test/n", "POST", some "5", some (.num 5), none⟩).bodySchema = none
      ∧ (∀ w : JVal, jvalIsObjLike w = false →
          inferSchemaFromBody w = [("_body", jsTypeof w)])
      ∧ (∀ kvs : List (String × JVal),
          inferSchemaFromBody (JVal.obj kvs)
            = kvs.map (fun kv => (kv.1, specTopLevelType kv.2)))
      ∧ inferSchemaFromBody (JVal.obj [("q", .str "red shoes"), ("max", .num 100),
          ("tags", .arr [.str "a"]), ("active", .bool true), ("note", .null)])
        = [("q", "string"), ("max", "number"), ("tags", "array"),
           ("active", "boolean"), ("note", "string")]) :=
  ⟨Or.inr ⟨rfl, rfl⟩,
    bodySchema_fallback_behaviour _ (.num 5) (Or.inr ⟨rfl, rfl⟩)⟩

/-- C6 (counterexample to the claim as stated): a non-decodable body (and a
body decoding to a non-object) produce a record whose `bodySchema` is
omitted (`undefined`), not a single synthetic `_body` field. -/
theorem bodySchema_nondecodable_omitted :
    (discoveredApis [⟨"fetch", "https://api.test/upload", "POST", some "raw-bytes",
        none, some "text/plain"⟩]).map (fun a => a.bodySchema) = [none]
    ∧ (recordOf ⟨"fetch", "https://api.test/upload", "POST", some "raw-bytes",
        none, some "text/plain"⟩).bodySchema = none
    ∧ (recordOf ⟨"xhr", "https://api.test/n", "POST", some "5", some (.num 5),
        none⟩).bodySchema = none := by
  refine ⟨by decide, by decide, by decide⟩
